import Mathlib

/-!
Verification of the sesame vault engine (a local-first encrypted secret
vault written in Rust) against its natural-language specification.

The Rust sources are shallowly embedded:
* strings are `List Char` (`Str`); byte buffers are `List Nat` (`Bytes`);
* the ChaCha20-Poly1305 AEAD (`crypto.rs`) is modelled symbolically: a
  ciphertext records the key, nonce and plaintext it was produced from,
  and decryption succeeds exactly when it is given the same key and
  nonce (the standard idealisation of an authenticated cipher: the tag
  check fails on every wrong key, nonce or tampered blob);
* Argon2id key derivation is modelled as the injective function of its
  inputs (password, salt, parameters) — the collision-free idealisation;
* `getrandom` is modelled by an explicit entropy stream passed through
  each operation; an exhausted stream models a failing random source;
* the SQLite tables (`db.rs` schema) become a record with an optional
  header row, an optional catalog row (both are `id = 1` singletons) and
  a list of item rows; SQL statements become the corresponding pure
  state transformations; a rusqlite transaction that errors before
  `commit` rolls back, so a failing embedded transaction returns the
  original state;
* serde_json payloads are modelled by the `Plain` type, whose
  constructors stand for the canonical (injective) JSON encodings of the
  catalog-entry array and of an item; `Plain.bytes` is a raw byte
  payload, used for non-canonical plaintexts such as the empty blob.
-/

/-- Strings of the Rust source, as lists of unicode scalar characters. -/
abbrev Str := List Char

/-- Byte buffers (Vec<u8> / [u8; N]), as lists of machine bytes. -/
abbrev Bytes := List Nat

/-- Entropy stream backing `getrandom`: each successful call to the OS
random source consumes one element (the bytes written into the caller's
buffer).  An empty stream models a failing random source. -/
abbrev Entropy := List Bytes

/-- Rust `char::to_lowercase` applied character-wise (ASCII-faithful
approximation of the Unicode mapping; every string reached by the
claims is ASCII). -/
def lowerStr (s : Str) : Str := s.map Char.toLower

/-- Rust `str::trim`: remove leading and trailing whitespace. -/
def trimStr (s : Str) : Str :=
  ((s.dropWhile Char.isWhitespace).reverse.dropWhile Char.isWhitespace).reverse

/-- Rust `str::len`: the length in UTF-8 bytes. -/
def utf8Len (s : Str) : Nat := (s.map Char.utf8Size).sum

/-- Numeric value of a digit string (the mathematical value, before any
machine-width restriction). -/
def natOfDigits (s : Str) : Nat := s.foldl (fun acc c => 10 * acc + (c.toNat - 48)) 0

/-- Largest usize value on the 64-bit targets the program is built for. -/
def usizeMax : Nat := 2 ^ 64 - 1

/-- Rust `str::parse::<usize>` restricted to the all-digit strings it is
applied to in `catalog.rs`: fails on the empty string and on values that
do not fit in a usize. -/
def parse_usize (s : Str) : Option Nat :=
  if s.isEmpty then none
  else if s.all Char.isDigit then
    let v := natOfDigits s
    if v ≤ usizeMax then some v else none
  else none

/-- Lexicographic byte comparison of two strings (Rust `Ord for str`;
for UTF-8 the byte order coincides with the scalar-value order). -/
def cmpStr : Str → Str → Ordering
  | [], [] => .eq
  | [], _ :: _ => .lt
  | _ :: _, [] => .gt
  | a :: as, b :: bs =>
    match compare a.toNat b.toNat with
    | .eq => cmpStr as bs
    | o => o

/-- Error taxonomy of the vault engine, one constructor per distinct
failure surfaced by the embedded functions (anyhow errors in the
source, distinguished here by their origin). -/
inductive Err where
  | noRow            -- query_row found no matching row
  | auth             -- AEAD tag mismatch (wrong key / nonce / tampering)
  | decode           -- malformed serialized payload
  | nonceLen         -- stored nonce blob has the wrong length
  | randFail         -- the OS random source failed
  | config           -- invalid Argon2 parameters
  | saltLen          -- header salt shorter than 8 bytes
  | emptyCatalog     -- selector resolution on an empty catalog
  | indexOutOfRange  -- numeric selector out of 1..len
  | prefixTooShort   -- id prefix shorter than 4 bytes
  | noMatch          -- no id shares the given prefix
  | ambiguous        -- two or more ids share the given prefix
deriving DecidableEq, Repr

/-- Catalog entry (catalog.rs): id, title, update timestamp. -/
structure CatalogEntry where
  id : Str
  title : Str
  updated_at : Int
deriving DecidableEq, Repr

instance : Inhabited CatalogEntry := ⟨⟨[], [], 0⟩⟩

/-- Decrypted item fields (items.rs `ItemPlain`). -/
structure ItemPlain where
  title : Str
  username : Str
  password : Str
  notes : Str
deriving DecidableEq, Repr

/-- Derived symmetric key.  Argon2id is modelled as the injective
function of its inputs, so a key is identified by the password, salt
and cost parameters it was derived from; two derivations agree exactly
when all inputs agree (collision-free idealisation of the KDF). -/
structure KeyS where
  password : Str
  salt : Bytes
  memKib : Nat
  iters : Nat
  lanes : Nat
deriving DecidableEq, Repr

/-- Plaintext payloads.  `entries es` and `item it` stand for the
canonical serde_json encodings (injective, never empty: the empty entry
array encodes as the two bytes of an empty JSON list).  `bytes b` is an
arbitrary raw payload. -/
inductive Plain where
  | bytes (b : Bytes)
  | entries (es : List CatalogEntry)
  | item (it : ItemPlain)
deriving DecidableEq, Repr

/-- Rust `Vec::is_empty` on the serialized payload. -/
def Plain.isEmptyBytes : Plain → Bool
  | .bytes b => b.isEmpty
  | .entries _ => false
  | .item _ => false

/-- serde_json::from_slice into Vec<CatalogEntry>: succeeds exactly on
the canonical encoding of an entry array. -/
def catalog_from_slice : Plain → Option (List CatalogEntry)
  | .entries es => some es
  | _ => none

/-- Symbolic AEAD ciphertext: records the key, nonce and plaintext of
the encryption that produced it. -/
structure Ct where
  key : KeyS
  nonce : Bytes
  pt : Plain
deriving DecidableEq, Repr

/-- Consume one getrandom call from the entropy stream. -/
def getrandom : Entropy → Except Err (Bytes × Entropy)
  | [] => .error .randFail
  | b :: g => .ok (b, g)

/-- crypto.rs `encrypt_blob`: draw a fresh 12-byte nonce from the
random source, encrypt, and return (ciphertext, nonce) plus the
remaining entropy. -/
def encrypt_blob (key : KeyS) (pt : Plain) (g : Entropy) :
    Except Err (Ct × Bytes × Entropy) := do
  let (nonce, g') ← getrandom g
  .ok (⟨key, nonce, pt⟩, nonce, g')

/-- crypto.rs `decrypt_blob`: the authenticated decryption succeeds
exactly when key and nonce match the ones the blob was encrypted with;
any mismatch is a tag failure. -/
def decrypt_blob (key : KeyS) (nonce : Bytes) (c : Ct) : Except Err Plain :=
  if c.key = key ∧ c.nonce = nonce then .ok c.pt else .error .auth

/-- Argon2 cost parameters (argon2 crate `Params`). -/
structure Params where
  mCost : Nat
  tCost : Nat
  pCost : Nat
deriving DecidableEq, Repr

/-- Modelled from the spec: `Params::new` of the argon2 dependency
(code outside src/) fails with a ConfigError on invalid parameters; the
validity condition used is the Argon2 requirement of at least one pass,
at least one lane and 8 KiB of memory per lane. -/
def Params.new (m t p : Nat) : Except Err Params :=
  if 1 ≤ t ∧ 1 ≤ p ∧ 8 * p ≤ m then .ok ⟨m, t, p⟩ else .error .config

/-- crypto.rs `derive_key`: Argon2id as an injective function of
password, salt and parameters. -/
def derive_key (password : Str) (salt : Bytes) (params : Params) : KeyS :=
  ⟨password, salt, params.mCost, params.tCost, params.pCost⟩

/-- Rust `as u32` cast of an i64 value. -/
def i64_as_u32 (x : Int) : Nat := (x % (2 ^ 32 : Int)).toNat

/-- Header row of the vault file (db.rs schema, singleton id = 1). -/
structure Header where
  format_version : Int
  kdf_salt : Bytes
  kdf_mem_kib : Int
  kdf_iters : Int
  kdf_parallelism : Int
deriving DecidableEq, Repr

/-- Catalog row (db.rs schema, singleton id = 1). -/
structure CatRow where
  nonce : Bytes
  ct : Ct
  updated_at : Int
deriving DecidableEq, Repr

/-- Item row (db.rs schema, keyed by the random hex id). -/
structure ItemRow where
  id : Str
  nonce : Bytes
  ct : Ct
  created_at : Int
  updated_at : Int
deriving DecidableEq, Repr

/-- The persisted vault state: the three tables of the SQLite file. -/
structure DB where
  header : Option Header
  catalog : Option CatRow
  items : List ItemRow
deriving DecidableEq, Repr

/-- Session handle (db.rs `Vault`): the open connection (its state) and
the derived key. -/
structure Vault where
  conn : DB
  key : KeyS
deriving DecidableEq, Repr

/-- db.rs `load_kdf_params`: read salt and cost parameters from the
singleton header row; errors if the row is absent or the salt is
shorter than 8 bytes. -/
def load_kdf_params (db : DB) : Except Err (Bytes × Int × Int × Int) :=
  match db.header with
  | none => .error .noRow
  | some h =>
    if h.kdf_salt.length < 8 then .error .saltLen
    else .ok (h.kdf_salt, h.kdf_mem_kib, h.kdf_iters, h.kdf_parallelism)

/-- crypto.rs `derive_key_from_header`: derive the session key from the
stored salt and parameters. -/
def derive_key_from_header (db : DB) (password : Str) : Except Err KeyS := do
  let (salt, m, t, p) ← load_kdf_params db
  let params ← Params.new (i64_as_u32 m) (i64_as_u32 t) (i64_as_u32 p)
  .ok (derive_key password salt params)

/-- db.rs `ensure_header`: insert the singleton header with a fresh
16-byte random salt and the fixed default cost parameters, only if the
row is absent. -/
def ensure_header (db : DB) (g : Entropy) : Except Err (DB × Entropy) :=
  match db.header with
  | some _ => .ok (db, g)
  | none => do
    let (salt, g') ← getrandom g
    .ok ({ db with header := some ⟨1, salt, 256 * 1024, 3, 1⟩ }, g')

/-- catalog.rs `ensure_empty_catalog`: if the singleton catalog row is
absent, insert the encryption of the serialized empty entry list (the
literal two-byte `[]` payload, i.e. the canonical encoding of no
entries). -/
def ensure_empty_catalog (db : DB) (key : KeyS) (now : Int) (g : Entropy) :
    Except Err (DB × Entropy) :=
  match db.catalog with
  | some _ => .ok (db, g)
  | none => do
    let (c, nonce, g') ← encrypt_blob key (.entries []) g
    .ok ({ db with catalog := some ⟨nonce, c, now⟩ }, g')

/-- db.rs `Vault::open`: ensure schema and header, derive the key from
the stored header, ensure the catalog row, and return the session.  The
first component of the result is the persisted state after the call
(also on failure: the header insert commits before later steps run). -/
def Vault.openVault (db : DB) (password : Str) (now : Int) (g : Entropy) :
    DB × Except Err Vault × Entropy :=
  match ensure_header db g with
  | .error e => (db, .error e, g)
  | .ok (db1, g1) =>
    match derive_key_from_header db1 password with
    | .error e => (db1, .error e, g1)
    | .ok key =>
      match ensure_empty_catalog db1 key now g1 with
      | .error e => (db1, .error e, g1)
      | .ok (db2, g2) => (db2, .ok ⟨db2, key⟩, g2)

/-- catalog.rs `load_catalog`: read the singleton catalog row, check
the stored nonce is 12 bytes, decrypt, return no entries on an empty
plaintext, otherwise parse the JSON payload. -/
def load_catalog (v : Vault) : Except Err (List CatalogEntry) :=
  match v.conn.catalog with
  | none => .error .noRow
  | some row =>
    if row.nonce.length ≠ 12 then .error .nonceLen
    else
      match decrypt_blob v.key row.nonce row.ct with
      | .error e => .error e
      | .ok pt =>
        if pt.isEmptyBytes then .ok []
        else
          match catalog_from_slice pt with
          | some es => .ok es
          | none => .error .decode

/-- Comparator of catalog.rs `load_catalog_sorted`: case-insensitive
title comparison, ties broken by id. -/
def entry_cmp (a b : CatalogEntry) : Ordering :=
  (cmpStr (lowerStr a.title) (lowerStr b.title)).then (cmpStr a.id b.id)

/-- Sort-order predicate induced by `entry_cmp` (an element may stay
before another exactly when the comparator does not say Greater, which
is what a stable comparison sort orders by). -/
def entry_le (a b : CatalogEntry) : Bool := decide (entry_cmp a b ≠ .gt)

/-- Propositional form of `entry_le`, the relation the sorted view is
ordered by. -/
def entry_ple (a b : CatalogEntry) : Prop := entry_le a b = true

instance : DecidableRel entry_ple := fun a b => by
  unfold entry_ple
  infer_instance

/-- catalog.rs `load_catalog_sorted`: load, then stable-sort by
`entry_cmp`.  Rust `sort_by` is a stable sort; since `entry_le` is a
total preorder, every stable sort produces the same output sequence, so
it is modelled by a stable insertion sort. -/
def load_catalog_sorted (v : Vault) : Except Err (List CatalogEntry) :=
  match load_catalog v with
  | .error e => .error e
  | .ok es => .ok (List.insertionSort entry_ple es)

/-- catalog.rs `save_catalog`: serialize the entries, encrypt under the
session key with a fresh nonce, and overwrite the singleton catalog row
(an UPDATE that matches no row when the row is absent, which is not an
error). -/
def save_catalog (v : Vault) (entries : List CatalogEntry) (now : Int)
    (g : Entropy) : Except Err (DB × Entropy) := do
  let (c, nonce, g') ← encrypt_blob v.key (.entries entries) g
  match v.conn.catalog with
  | none => .ok (v.conn, g')
  | some _ => .ok ({ v.conn with catalog := some ⟨nonce, c, now⟩ }, g')

/-- catalog.rs `resolve_selector_to_id`: an all-digit selector is a
1-based index into the sorted view (a failed usize parse becomes index
0); anything else is trimmed, lower-cased and used as an id prefix that
must be at least 4 bytes long and match exactly one entry. -/
def resolve_selector_to_id (v : Vault) (sel : Str) : Except Err Str :=
  match load_catalog_sorted v with
  | .error e => .error e
  | .ok entries =>
    if entries.isEmpty then .error .emptyCatalog
    else if sel.all Char.isDigit then
      let idx := (parse_usize sel).getD 0
      if idx = 0 ∨ entries.length < idx then .error .indexOutOfRange
      else .ok (entries.getD (idx - 1) default).id
    else
      let pfx := lowerStr (trimStr sel)
      if utf8Len pfx < 4 then .error .prefixTooShort
      else
        match entries.filter (fun e => pfx.isPrefixOf e.id) with
        | [] => .error .noMatch
        | [e] => .ok e.id
        | _ :: _ :: _ => .error .ambiguous

/-- items.rs `delete_item`: delete the item row; zero rows affected is
reported as not found and the function returns successfully right
away; otherwise the catalog is loaded, every entry with the id is
removed, and the catalog is saved.  Returns the persisted state after
the call together with the call's outcome. -/
def delete_item (v : Vault) (id : Str) (now : Int) (g : Entropy) :
    DB × Except Err Entropy :=
  let remaining := v.conn.items.filter (fun r => decide (r.id ≠ id))
  let rows := v.conn.items.length - remaining.length
  if rows = 0 then (v.conn, .ok g)
  else
    let db1 : DB := { v.conn with items := remaining }
    match load_catalog ⟨db1, v.key⟩ with
    | .error e => (db1, .error e)
    | .ok entries =>
      let entries2 := entries.filter (fun e => decide (e.id ≠ id))
      match save_catalog ⟨db1, v.key⟩ entries2 now g with
      | .error e => (db1, .error e)
      | .ok (db2, g') => (db2, .ok g')

/-- Re-encryption loop of db.rs `set_master_password`: for every item
row, check the stored nonce length, decrypt under the old key and
re-encrypt under the new key with a fresh nonce, bumping the update
timestamp. -/
def rotate_items (old_key new_key : KeyS) (now : Int) :
    List ItemRow → Entropy → Except Err (List ItemRow × Entropy)
  | [], g => .ok ([], g)
  | r :: rs, g =>
    if r.nonce.length ≠ 12 then .error .nonceLen
    else do
      let pt ← decrypt_blob old_key r.nonce r.ct
      let (c, nonce, g1) ← encrypt_blob new_key pt g
      let (rest, g2) ← rotate_items old_key new_key now rs g1
      .ok ({ r with nonce := nonce, ct := c, updated_at := now } :: rest, g2)

/-- Transaction body of db.rs `set_master_password`: rotate every item
row, then the singleton catalog row, then overwrite the header's salt
and parameters.  The whole result is the state this transaction would
commit. -/
def smp_tx (db : DB) (old_key new_key : KeyS) (salt : Bytes)
    (m t p : Int) (now : Int) (g : Entropy) : Except Err (DB × Entropy) := do
  let (items2, g1) ← rotate_items old_key new_key now db.items g
  let cat ← match db.catalog with
            | some c => Except.ok c
            | none => Except.error Err.noRow
  if cat.nonce.length ≠ 12 then Except.error Err.nonceLen
  else do
    let pt ← decrypt_blob old_key cat.nonce cat.ct
    let (c, nonce, g2) ← encrypt_blob new_key pt g1
    let header2 := db.header.map fun h =>
      { h with kdf_salt := salt, kdf_mem_kib := m, kdf_iters := t,
               kdf_parallelism := p }
    Except.ok (⟨header2, some ⟨nonce, c, now⟩, items2⟩, g2)

/-- db.rs `set_master_password`: authenticate by deriving the old key
from the current header, draw a fresh salt, derive the new key with the
fixed default parameters, and run the re-encryption transaction; the
transaction commits atomically, so on any error the persisted state is
the unchanged input state (rusqlite rolls an uncommitted transaction
back).  `smp_run` is the whole fallible computation; the wrapper below
turns its outcome into the persisted state plus result. -/
def smp_run (v : Vault) (old_pw new_pw : Str) (now : Int) (g : Entropy) :
    Except Err (DB × Entropy) := do
  let old_key ← derive_key_from_header v.conn old_pw
  let (salt, g1) ← getrandom g
  let mem : Int := 256 * 1024
  let iters : Int := 3
  let lanes : Int := 1
  let params ← Params.new (i64_as_u32 mem) (i64_as_u32 iters) (i64_as_u32 lanes)
  let new_key := derive_key new_pw salt params
  smp_tx v.conn old_key new_key salt mem iters lanes now g1

/-- db.rs `set_master_password`, outcome view: the committed state on
success, the unchanged input state on any error. -/
def set_master_password (v : Vault) (old_pw new_pw : Str) (now : Int)
    (g : Entropy) : DB × Except Err Entropy :=
  match smp_run v old_pw new_pw now g with
  | .ok (db2, g2) => (db2, .ok g2)
  | .error e => (v.conn, .error e)

/-- Stream of u32 draws backing util.rs `rand_index` (each loop
iteration reads 4 bytes from getrandom and assembles a little-endian
u32); an exhausted stream models a failing random source. -/
abbrev U32Rng := List Nat

/-- Errors of the password generator, separated by origin so that the
spec's ValidationError is distinguishable from random-source failures
and from panics. -/
inductive GenErr where
  | validation     -- constraint violation reported by gen_password
  | emptyAlphabet  -- rand_index called with an empty alphabet
  | panicked       -- arithmetic or indexing panic
  | randFail       -- the OS random source failed
deriving DecidableEq, Repr

/-- Rejection loop of util.rs `rand_index`: draw u32 values until one
falls below the rejection limit, then reduce it modulo the alphabet
size. -/
def rand_index_go (limit n32 : Nat) : U32Rng → Except GenErr (Nat × U32Rng)
  | [] => .error .randFail
  | x :: g =>
    if x % 2 ^ 32 < limit then .ok (x % 2 ^ 32 % n32, g)
    else rand_index_go limit n32 g

/-- util.rs `rand_index`: rejection-sampled uniform index in [0, n).
The source casts n to u32 before taking remainders, so an n that is a
nonzero multiple of 2^32 panics on a division by zero. -/
def rand_index (n : Nat) (g : U32Rng) : Except GenErr (Nat × U32Rng) :=
  if n = 0 then .error .emptyAlphabet
  else
    let n32 := n % 2 ^ 32
    if n32 = 0 then .error .panicked
    else rand_index_go ((2 ^ 32 - 1) - (2 ^ 32 - 1) % n32) n32 g

/-- util.rs `pick_one`: a uniformly chosen element of the alphabet
(indexing past the end would be a panic, which `rand_index` precludes). -/
def pick_one (alphabet : List Char) (g : U32Rng) : Except GenErr (Char × U32Rng) :=
  match rand_index alphabet.length g with
  | .error e => .error e
  | .ok (k, g') =>
    match alphabet[k]? with
    | some c => .ok (c, g')
    | none => .error .panicked

/-- Upper-case pool of util.rs `gen_password` (no I or O). -/
def UPPERS : List Char := "ABCDEFGHJKLMNPQRSTUVWXYZ".toList

/-- Lower-case pool of util.rs `gen_password` (no l). -/
def LOWERS : List Char := "abcdefghijkmnopqrstuvwxyz".toList

/-- Digit pool of util.rs `gen_password` (no 0 or 1). -/
def DIGITS : List Char := "23456789".toList

/-- Special-character pool of util.rs `gen_password`. -/
def SPECIALS : List Char := "!@#$%^&*()[]\x7b\x7d-_=+:;,.?/".toList

/-- Enabled buckets of util.rs `gen_password`, in declaration order: a
class's pool is present exactly when its disable flag is off (the
constant pools are nonempty). -/
def enabledBuckets (no_upper no_lower no_digits no_specials : Bool) :
    List (List Char) :=
  let uppers := if no_upper then [] else UPPERS
  let lowers := if no_lower then [] else LOWERS
  let digits := if no_digits then [] else DIGITS
  let specials := if no_specials then [] else SPECIALS
  (if uppers.isEmpty then [] else [uppers]) ++
  (if lowers.isEmpty then [] else [lowers]) ++
  (if digits.isEmpty then [] else [digits]) ++
  (if specials.isEmpty then [] else [specials])

/-- Union alphabet of util.rs `gen_password`: the concatenation of the
enabled pools. -/
def unionPool (no_upper no_lower no_digits no_specials : Bool) : List Char :=
  (if no_upper then [] else UPPERS) ++ (if no_lower then [] else LOWERS) ++
  (if no_digits then [] else DIGITS) ++ (if no_specials then [] else SPECIALS)

/-- Seeding phase of util.rs `gen_password`: one uniformly chosen
character from each enabled bucket, in bucket order. -/
def seed_buckets : List (List Char) → U32Rng → Except GenErr (List Char × U32Rng)
  | [], g => .ok ([], g)
  | b :: bs, g =>
    match pick_one b g with
    | .error e => .error e
    | .ok (c, g1) =>
      match seed_buckets bs g1 with
      | .error e => .error e
      | .ok (rest, g2) => .ok (c :: rest, g2)

/-- Filling phase of util.rs `gen_password`: draw the remaining
characters uniformly from the union pool (the while loop appends one
character per iteration, so it runs exactly the missing-length many
times). -/
def fillN (union : List Char) : Nat → U32Rng → Except GenErr (List Char × U32Rng)
  | 0, g => .ok ([], g)
  | n + 1, g =>
    match pick_one union g with
    | .error e => .error e
    | .ok (c, g1) =>
      match fillN union n g1 with
      | .error e => .error e
      | .ok (rest, g2) => .ok (c :: rest, g2)

/-- Swap of two positions of a list (Vec::swap; out-of-range indices
cannot be reached by the shuffle below). -/
def listSwap (l : List Char) (i j : Nat) : List Char :=
  match l[i]?, l[j]? with
  | some a, some b => (l.set i b).set j a
  | _, _ => l

/-- Fisher-Yates loop of util.rs `gen_password`: for i from len-1 down
to 1, swap position i with a uniformly chosen position j ≤ i. -/
def fy_aux : List Char → Nat → U32Rng → Except GenErr (List Char × U32Rng)
  | l, 0, g => .ok (l, g)
  | l, i + 1, g =>
    match rand_index (i + 2) g with
    | .error e => .error e
    | .ok (j, g1) => fy_aux (listSwap l (i + 1) j) i g1

/-- util.rs `gen_password`: validate the requested length against the
enabled classes, seed one character per enabled class, fill up to the
requested length from the union pool, and shuffle. -/
def gen_password (len : Nat) (no_upper no_lower no_digits no_specials : Bool)
    (g : U32Rng) : Except GenErr Str :=
  let buckets := enabledBuckets no_upper no_lower no_digits no_specials
  if buckets.isEmpty then .error .validation
  else if len < buckets.length then .error .validation
  else
    let union := unionPool no_upper no_lower no_digits no_specials
    match seed_buckets buckets g with
    | .error e => .error e
    | .ok (seeds, g1) =>
      match fillN union (len - seeds.length) g1 with
      | .error e => .error e
      | .ok (filled, g2) =>
        let out := seeds ++ filled
        match fy_aux out (out.length - 1) g2 with
        | .error e => .error e
        | .ok (res, _) => .ok res

/-- Number of enabled character classes, as the claims phrase it. -/
def numEnabled (no_upper no_lower no_digits no_specials : Bool) : Nat :=
  (if no_upper then 0 else 1) + (if no_lower then 0 else 1) +
  (if no_digits then 0 else 1) + (if no_specials then 0 else 1)

/-! Helper lemmas about the string comparator. -/

theorem char_toNat_inj {a b : Char} (h : a.toNat = b.toNat) : a = b :=
  Char.ext (UInt32.ext h)

theorem cmpStr_eq_iff : ∀ (a b : Str), cmpStr a b = .eq ↔ a = b := by
  intro a
  induction a with
  | nil => intro b; cases b <;> simp [cmpStr]
  | cons x xs ih =>
    intro b
    cases b with
    | nil => simp [cmpStr]
    | cons y ys =>
      cases h : compare x.toNat y.toNat with
      | lt =>
        simp only [cmpStr, h]
        constructor
        · intro hc; cases hc
        · intro hc
          injection hc with h1 h2
          subst h1
          exact absurd (Nat.compare_eq_lt.mp h) (lt_irrefl _)
      | eq =>
        have hx : x = y := char_toNat_inj (Nat.compare_eq_eq.mp h)
        subst hx
        simp only [cmpStr, h, ih]
        constructor
        · intro hc; rw [hc]
        · intro hc; injection hc
      | gt =>
        simp only [cmpStr, h]
        constructor
        · intro hc; cases hc
        · intro hc
          injection hc with h1 h2
          subst h1
          exact absurd (Nat.compare_eq_gt.mp h) (lt_irrefl _)

theorem cmpStr_swap : ∀ (a b : Str), cmpStr b a = (cmpStr a b).swap := by
  intro a
  induction a with
  | nil => intro b; cases b <;> simp [cmpStr, Ordering.swap]
  | cons x xs ih =>
    intro b
    cases b with
    | nil => simp [cmpStr, Ordering.swap]
    | cons y ys =>
      have h2 : compare y.toNat x.toNat = (compare x.toNat y.toNat).swap :=
        (Nat.compare_swap _ _).symm
      cases h : compare x.toNat y.toNat with
      | lt => rw [h] at h2; simp [cmpStr, h, h2, Ordering.swap]
      | eq => rw [h] at h2; simp [cmpStr, h, h2, Ordering.swap, ih]
      | gt => rw [h] at h2; simp [cmpStr, h, h2, Ordering.swap]

theorem cmpStr_lt_trans :
    ∀ (a b c : Str), cmpStr a b = .lt → cmpStr b c = .lt → cmpStr a c = .lt := by
  intro a
  induction a with
  | nil =>
    intro b c h1 h2
    cases b with
    | nil => simp [cmpStr] at h1
    | cons y ys =>
      cases c with
      | nil => simp [cmpStr] at h2
      | cons z zs => simp [cmpStr]
  | cons x xs ih =>
    intro b c h1 h2
    cases b with
    | nil => simp [cmpStr] at h1
    | cons y ys =>
      cases c with
      | nil => simp [cmpStr] at h2
      | cons z zs =>
        cases hxy : compare x.toNat y.toNat with
        | gt => simp [cmpStr, hxy] at h1
        | lt =>
          cases hyz : compare y.toNat z.toNat with
          | gt => simp [cmpStr, hyz] at h2
          | lt =>
            have hxz : compare x.toNat z.toNat = .lt :=
              Nat.compare_eq_lt.mpr
                (lt_trans (Nat.compare_eq_lt.mp hxy) (Nat.compare_eq_lt.mp hyz))
            simp [cmpStr, hxz]
          | eq =>
            have hyz' : y.toNat = z.toNat := Nat.compare_eq_eq.mp hyz
            have hxz : compare x.toNat z.toNat = .lt := by
              rw [← hyz']; exact hxy
            simp [cmpStr, hxz]
        | eq =>
          have hxy' : x.toNat = y.toNat := Nat.compare_eq_eq.mp hxy
          cases hyz : compare y.toNat z.toNat with
          | gt => simp [cmpStr, hyz] at h2
          | lt =>
            have hxz : compare x.toNat z.toNat = .lt := by
              rw [hxy']; exact hyz
            simp [cmpStr, hxz]
          | eq =>
            have hxz : compare x.toNat z.toNat = .eq := by
              rw [hxy']; exact hyz
            simp only [cmpStr, hxy] at h1
            simp only [cmpStr, hyz] at h2
            simp only [cmpStr, hxz]
            exact ih ys zs h1 h2

theorem cmpStr_le_trans {a b c : Str}
    (h1 : cmpStr a b ≠ .gt) (h2 : cmpStr b c ≠ .gt) : cmpStr a c ≠ .gt := by
  cases hab : cmpStr a b with
  | gt => exact absurd hab h1
  | eq =>
    have : a = b := (cmpStr_eq_iff a b).mp hab
    subst this
    exact h2
  | lt =>
    cases hbc : cmpStr b c with
    | gt => exact absurd hbc h2
    | eq =>
      have : b = c := (cmpStr_eq_iff b c).mp hbc
      subst this
      rw [hab]
      intro hc; cases hc
    | lt =>
      rw [cmpStr_lt_trans a b c hab hbc]
      intro hc; cases hc

theorem ordering_then_swap (x y : Ordering) : (x.then y).swap = x.swap.then y.swap := by
  cases x <;> rfl

theorem entry_cmp_swap (a b : CatalogEntry) : entry_cmp b a = (entry_cmp a b).swap := by
  unfold entry_cmp
  rw [cmpStr_swap (lowerStr a.title) (lowerStr b.title), cmpStr_swap a.id b.id,
    ordering_then_swap]

theorem entry_le_total (a b : CatalogEntry) :
    entry_le a b = true ∨ entry_le b a = true := by
  by_cases h : entry_cmp a b = .gt
  · right
    simp only [entry_le, decide_eq_true_eq]
    rw [entry_cmp_swap a b, h]
    intro hc; cases hc
  · left
    simp only [entry_le, decide_eq_true_eq]
    exact h

theorem entry_le_trans (a b c : CatalogEntry)
    (h1 : entry_le a b = true) (h2 : entry_le b c = true) : entry_le a c = true := by
  simp only [entry_le, decide_eq_true_eq] at h1 h2 ⊢
  unfold entry_cmp at h1 h2 ⊢
  cases hab : cmpStr (lowerStr a.title) (lowerStr b.title) with
  | gt => rw [hab] at h1; exact absurd rfl h1
  | lt =>
    cases hbc : cmpStr (lowerStr b.title) (lowerStr c.title) with
    | gt => rw [hbc] at h2; exact absurd rfl h2
    | lt =>
      rw [cmpStr_lt_trans _ _ _ hab hbc]
      intro hc; cases hc
    | eq =>
      have he : lowerStr b.title = lowerStr c.title := (cmpStr_eq_iff _ _).mp hbc
      rw [← he, hab]
      intro hc; cases hc
  | eq =>
    have he : lowerStr a.title = lowerStr b.title := (cmpStr_eq_iff _ _).mp hab
    rw [hab] at h1
    cases hbc : cmpStr (lowerStr b.title) (lowerStr c.title) with
    | gt => rw [hbc] at h2; exact absurd rfl h2
    | lt =>
      rw [he, hbc]
      intro hc; cases hc
    | eq =>
      rw [hbc] at h2
      have he2 : lowerStr b.title = lowerStr c.title := (cmpStr_eq_iff _ _).mp hbc
      have hac : cmpStr (lowerStr a.title) (lowerStr c.title) = .eq :=
        (cmpStr_eq_iff _ _).mpr (he.trans he2)
      rw [hac]
      have h1' : cmpStr a.id b.id ≠ .gt := h1
      have h2' : cmpStr b.id c.id ≠ .gt := h2
      exact cmpStr_le_trans h1' h2'

/-! Claim C8: sorted view of the catalog. -/

/-- C8: for every catalog, `load_catalog_sorted` returns the same
multiset of entries ordered by case-insensitive title ascending with
ties broken by id ascending; the order is total, and the output is a
deterministic function of the decrypted entries. -/
instance : IsTotal CatalogEntry entry_ple := ⟨entry_le_total⟩

instance : IsTrans CatalogEntry entry_ple := ⟨entry_le_trans⟩

theorem load_catalog_sorted_spec (v : Vault) (es : List CatalogEntry)
    (h : load_catalog v = .ok es) :
    load_catalog_sorted v = .ok (List.insertionSort entry_ple es) ∧
    (List.insertionSort entry_ple es).Perm es ∧
    List.Pairwise entry_ple (List.insertionSort entry_ple es) ∧
    (∀ a b : CatalogEntry, entry_ple a b ∨ entry_ple b a) ∧
    (∀ w : Vault, load_catalog w = .ok es →
      load_catalog_sorted w = load_catalog_sorted v) := by
  refine ⟨?_, ?_, ?_, ?_, ?_⟩
  · unfold load_catalog_sorted
    rw [h]
  · exact List.perm_insertionSort entry_ple es
  · exact List.sorted_insertionSort entry_ple es
  · exact entry_le_total
  · intro w hw
    unfold load_catalog_sorted
    rw [h, hw]

/-! Claim C2: encrypt/decrypt round-trip. -/

/-- C2: for every key and plaintext, if `encrypt_blob` succeeds with
ciphertext c and nonce n, then `decrypt_blob` with the same key and
nonce recovers exactly the plaintext. -/
theorem encrypt_decrypt_roundtrip (k : KeyS) (pt : Plain) (g : Entropy)
    (c : Ct) (n : Bytes) (g' : Entropy)
    (h : encrypt_blob k pt g = .ok (c, n, g')) :
    decrypt_blob k n c = .ok pt := by
  cases g with
  | nil =>
    have h2 : (Except.error Err.randFail : Except Err (Ct × Bytes × Entropy))
        = .ok (c, n, g') := h
    cases h2
  | cons b gs =>
    have hx : encrypt_blob k pt (b :: gs) = .ok (⟨k, b, pt⟩, b, gs) := rfl
    rw [hx] at h
    injection h with h1
    injection h1 with hc hrest
    injection hrest with hn hg
    subst hc
    subst hn
    simp [decrypt_blob]

/-! Claim C1: rotation failure leaves the vault unchanged. -/

/-- C1: if `set_master_password` fails for any reason (in particular a
decryption failure caused by a wrong old password or a corrupt row),
then every item row, the catalog row and the header are unchanged: the
whole vault stays on the old key with no partially rotated state
observable. -/
theorem set_master_password_atomic (v : Vault) (old_pw new_pw : Str)
    (now : Int) (g : Entropy) (e : Err)
    (h : (set_master_password v old_pw new_pw now g).2 = .error e) :
    (set_master_password v old_pw new_pw now g).1.items = v.conn.items ∧
    (set_master_password v old_pw new_pw now g).1.catalog = v.conn.catalog ∧
    (set_master_password v old_pw new_pw now g).1.header = v.conn.header := by
  unfold set_master_password at h ⊢
  cases hr : smp_run v old_pw new_pw now g with
  | ok p =>
    obtain ⟨db2, g2⟩ := p
    rw [hr] at h
    simp at h
  | error e2 =>
    exact ⟨rfl, rfl, rfl⟩

/-! Claim C9: an empty catalog plaintext is an empty entry list. -/

/-- C9: for every session whose catalog blob decrypts to an empty
(zero-byte) plaintext, `load_catalog` returns the empty collection of
entries rather than an error. -/
theorem load_catalog_empty_plaintext (v : Vault) (row : CatRow)
    (h1 : v.conn.catalog = some row) (h2 : row.nonce.length = 12)
    (h3 : row.ct.key = v.key) (h4 : row.ct.nonce = row.nonce)
    (h5 : row.ct.pt = .bytes []) :
    load_catalog v = .ok [] := by
  unfold load_catalog
  rw [h1]
  simp [h2, decrypt_blob, h3, h4, h5, Plain.isEmptyBytes]

/-! Claim C7: opening is idempotent with respect to initialisation. -/

theorem ensure_header_of_some {db : DB} {hd : Header}
    (hh : db.header = some hd) (g : Entropy) : ensure_header db g = .ok (db, g) := by
  unfold ensure_header
  rw [hh]

theorem ensure_header_isSome {db db1 : DB} {g g1 : Entropy}
    (h : ensure_header db g = .ok (db1, g1)) : db1.header.isSome = true := by
  unfold ensure_header at h
  cases hh : db.header with
  | some hd =>
    rw [hh] at h
    injection h with h1
    injection h1 with h2 h3
    rw [← h2, hh]
    rfl
  | none =>
    rw [hh] at h
    cases g with
    | nil => cases h
    | cons b gs =>
      have h2 : (Except.ok ({ db with header := some ⟨1, b, 256 * 1024, 3, 1⟩ }, gs)
          : Except Err (DB × Entropy)) = .ok (db1, g1) := h
      injection h2 with h3
      injection h3 with h4 h5
      rw [← h4]
      rfl

theorem ensure_empty_catalog_of_some {db : DB} {c : CatRow} {key : KeyS}
    (hc : db.catalog = some c) (now : Int) (g : Entropy) :
    ensure_empty_catalog db key now g = .ok (db, g) := by
  unfold ensure_empty_catalog
  rw [hc]

theorem ensure_empty_catalog_ok {db db2 : DB} {key : KeyS} {now : Int}
    {g g2 : Entropy} (h : ensure_empty_catalog db key now g = .ok (db2, g2)) :
    db2.catalog.isSome = true ∧ db2.header = db.header := by
  unfold ensure_empty_catalog at h
  cases hc : db.catalog with
  | some c =>
    rw [hc] at h
    injection h with h1
    injection h1 with h2 h3
    rw [← h2]
    exact ⟨by rw [hc]; rfl, rfl⟩
  | none =>
    rw [hc] at h
    cases g with
    | nil => cases h
    | cons b gs =>
      have h2 : (Except.ok ({ db with catalog := some ⟨b, ⟨key, b, .entries []⟩, now⟩ }, gs)
          : Except Err (DB × Entropy)) = .ok (db2, g2) := h
      injection h2 with h3
      injection h3 with h4 h5
      rw [← h4]
      exact ⟨rfl, rfl⟩

theorem derive_key_from_header_congr {db db' : DB} (pw : Str)
    (h : db.header = db'.header) :
    derive_key_from_header db pw = derive_key_from_header db' pw := by
  unfold derive_key_from_header load_kdf_params
  rw [h]

/-- C7: opening the vault is idempotent with respect to initialisation:
after any successful `Vault::open`, a second open of the resulting state
with the same password changes nothing — in particular the header's
salt and KDF parameters stay as they are and no second catalog row is
inserted (the catalog row, being part of the unchanged state, keeps its
ciphertext) — and the second open succeeds with the same derived key. -/
theorem openVault_idempotent (db db1 : DB) (pw : Str) (now : Int)
    (g g1 : Entropy) (v : Vault)
    (h : Vault.openVault db pw now g = (db1, .ok v, g1)) :
    ∀ (now2 : Int) (g2 : Entropy),
      Vault.openVault db1 pw now2 g2 = (db1, .ok ⟨db1, v.key⟩, g2) := by
  intro now2 g2
  unfold Vault.openVault at h
  split at h
  · injection h with ha hb
    injection hb with hb1 hb2
    exact Except.noConfusion hb1
  · rename_i dbA gA h1
    split at h
    · injection h with ha hb
      injection hb with hb1 hb2
      exact Except.noConfusion hb1
    · rename_i key h2
      split at h
      · injection h with ha hb
        injection hb with hb1 hb2
        exact Except.noConfusion hb1
      · rename_i dbB gB h3
        injection h with ha hb
        injection hb with hb1 hb2
        injection hb1 with hv
        subst ha
        obtain ⟨hcat, hhd⟩ := ensure_empty_catalog_ok h3
        have hhd1 : dbB.header.isSome = true := by
          rw [hhd]; exact ensure_header_isSome h1
        obtain ⟨hd, hhd2⟩ := Option.isSome_iff_exists.mp hhd1
        obtain ⟨cr, hcr⟩ := Option.isSome_iff_exists.mp hcat
        have hk2 : derive_key_from_header dbB pw = .ok key := by
          rw [derive_key_from_header_congr pw hhd]
          exact h2
        unfold Vault.openVault
        rw [ensure_header_of_some hhd2 g2]
        dsimp only
        rw [hk2]
        dsimp only
        rw [ensure_empty_catalog_of_some hcr now2 g2]
        dsimp only
        rw [← hv]

/-! Claims C4, C5, C10: selector resolution. -/

theorem natOfDigits_nil : natOfDigits [] = 0 := rfl

/-- Shared analysis of the all-digit branch of
`resolve_selector_to_id`. -/
theorem resolve_digit_core (v : Vault) (sel : Str) (es : List CatalogEntry)
    (hl : load_catalog_sorted v = .ok es) (hne : es ≠ [])
    (hcap : es.length ≤ usizeMax) (hdig : sel.all Char.isDigit = true) :
    (1 ≤ natOfDigits sel → natOfDigits sel ≤ es.length →
      resolve_selector_to_id v sel = .ok ((es.getD (natOfDigits sel - 1) default).id)) ∧
    ((natOfDigits sel = 0 ∨ es.length < natOfDigits sel) →
      resolve_selector_to_id v sel = .error .indexOutOfRange) := by
  have hne' : es.isEmpty = false := by
    cases es with
    | nil => exact absurd rfl hne
    | cons a l => rfl
  unfold resolve_selector_to_id
  rw [hl]
  dsimp only
  rw [hne']
  simp only [Bool.false_eq_true, if_false, hdig, if_true]
  constructor
  · intro h1 h2
    have hselne : sel.isEmpty = false := by
      cases sel with
      | nil => rw [natOfDigits_nil] at h1; exact absurd h1 (by decide)
      | cons c cs => rfl
    have hparse : parse_usize sel = some (natOfDigits sel) := by
      unfold parse_usize
      rw [hselne]
      simp only [Bool.false_eq_true, if_false, hdig, if_true]
      rw [if_pos (le_trans h2 hcap)]
    rw [hparse]
    simp only [Option.getD_some]
    rw [if_neg (by omega)]
  · intro hout
    cases hse : sel.isEmpty with
    | true =>
      have : parse_usize sel = none := by
        unfold parse_usize
        rw [hse]
        rfl
      rw [this]
      simp
    | false =>
      by_cases hle : natOfDigits sel ≤ usizeMax
      · have hparse : parse_usize sel = some (natOfDigits sel) := by
          unfold parse_usize
          rw [hse]
          simp only [Bool.false_eq_true, if_false, hdig, if_true]
          rw [if_pos hle]
        rw [hparse]
        simp only [Option.getD_some]
        rw [if_pos hout]
      · have hparse : parse_usize sel = none := by
          unfold parse_usize
          rw [hse]
          simp only [Bool.false_eq_true, if_false, hdig, if_true]
          rw [if_neg hle]
        rw [hparse]
        simp

/-- C4: on a non-empty catalog, an all-digit selector is treated as a
1-based index into the sorted view: positions 1..len resolve to the id
of the entry at that position, and 0 or a value past the end fails with
the index-out-of-range error.  (The catalog size is bounded by the
usize capacity, as any Rust Vec is.) -/
theorem resolve_selector_index_spec (v : Vault) (sel : Str)
    (es : List CatalogEntry)
    (hl : load_catalog_sorted v = .ok es) (hne : es ≠ [])
    (hcap : es.length ≤ usizeMax) (hdig : sel.all Char.isDigit = true) :
    (1 ≤ natOfDigits sel → natOfDigits sel ≤ es.length →
      resolve_selector_to_id v sel = .ok ((es.getD (natOfDigits sel - 1) default).id)) ∧
    ((natOfDigits sel = 0 ∨ es.length < natOfDigits sel) →
      resolve_selector_to_id v sel = .error .indexOutOfRange) :=
  resolve_digit_core v sel es hl hne hcap hdig

/-- C10: an all-digit selector whose numeric value does not fit in a
usize cannot panic the resolver: the failed parse is replaced by index
0 and the call fails with the index-out-of-range error.  (The embedded
function is total, so no panic is possible on this path.) -/
theorem resolve_selector_overflow_safe (v : Vault) (sel : Str)
    (es : List CatalogEntry)
    (hl : load_catalog_sorted v = .ok es) (hne : es ≠ [])
    (hcap : es.length ≤ usizeMax) (hdig : sel.all Char.isDigit = true)
    (hbig : usizeMax < natOfDigits sel) :
    resolve_selector_to_id v sel = .error .indexOutOfRange :=
  (resolve_digit_core v sel es hl hne hcap hdig).2 (Or.inr (lt_of_le_of_lt hcap hbig))

/-- C5 (amended): a selector containing a non-digit character is
trimmed of surrounding whitespace and lower-cased, then used as an id
prefix: shorter than 4 bytes fails as too short, zero matching ids fail
as no match, two or more as ambiguous, and a unique match returns that
entry's id. -/
theorem resolve_selector_prefix_spec (v : Vault) (sel : Str)
    (es : List CatalogEntry)
    (hl : load_catalog_sorted v = .ok es) (hne : es ≠ [])
    (hnd : sel.all Char.isDigit = false) :
    (utf8Len (lowerStr (trimStr sel)) < 4 →
      resolve_selector_to_id v sel = .error .prefixTooShort) ∧
    (4 ≤ utf8Len (lowerStr (trimStr sel)) →
      ((es.filter fun en => (lowerStr (trimStr sel)).isPrefixOf en.id) = [] →
        resolve_selector_to_id v sel = .error .noMatch) ∧
      (∀ e1, (es.filter fun en => (lowerStr (trimStr sel)).isPrefixOf en.id) = [e1] →
        resolve_selector_to_id v sel = .ok e1.id) ∧
      (∀ e1 e2 rest,
        (es.filter fun en => (lowerStr (trimStr sel)).isPrefixOf en.id)
          = e1 :: e2 :: rest →
        resolve_selector_to_id v sel = .error .ambiguous)) := by
  have hne' : es.isEmpty = false := by
    cases es with
    | nil => exact absurd rfl hne
    | cons a l => rfl
  unfold resolve_selector_to_id
  rw [hl]
  dsimp only
  rw [hne', hnd]
  simp only [Bool.false_eq_true, if_false]
  constructor
  · intro hshort
    rw [if_pos hshort]
  · intro hlong
    rw [if_neg (not_lt.mpr hlong)]
    refine ⟨?_, ?_, ?_⟩
    · intro hf; rw [hf]
    · intro e1 hf; rw [hf]
    · intro e1 e2 rest hf; rw [hf]

/-! Claim C3: delete_item and the catalog. -/

theorem save_catalog_eq {db : DB} {key : KeyS}
    (entries : List CatalogEntry) (now : Int) (nonce : Bytes) (grest : Entropy) :
    save_catalog ⟨db, key⟩ entries now (nonce :: grest)
      = (match db.catalog with
         | none => .ok (db, grest)
         | some _ =>
           .ok ({ db with catalog := some ⟨nonce, ⟨key, nonce, .entries entries⟩, now⟩ },
                grest)) := rfl

theorem load_catalog_enc (db : DB) (key : KeyS) (nonce : Bytes)
    (es : List CatalogEntry) (uat : Int)
    (hc : db.catalog = some ⟨nonce, ⟨key, nonce, .entries es⟩, uat⟩)
    (hn : nonce.length = 12) :
    load_catalog ⟨db, key⟩ = .ok es := by
  unfold load_catalog
  dsimp only
  rw [hc]
  simp [hn, decrypt_blob, Plain.isEmptyBytes, catalog_from_slice]

/-- C3 (amended): `delete_item` removes the item row and reports zero
rows affected as not found rather than an error; the catalog entry for
the id is removed (idempotently) only when an item row was actually
deleted — after such a successful delete, zero catalog entries with the
id remain — whereas when the item row was already absent the function
returns successfully at once and leaves the catalog untouched, so a
dangling catalog entry for the id survives. -/
theorem delete_item_spec (db : DB) (key : KeyS) (id : Str) (now : Int)
    (nonce : Bytes) (grest : Entropy) (es : List CatalogEntry)
    (hload : load_catalog ⟨db, key⟩ = .ok es)
    (hn : nonce.length = 12) :
    ((∃ r ∈ db.items, r.id = id) →
      (delete_item ⟨db, key⟩ id now (nonce :: grest)).2 = .ok grest ∧
      (delete_item ⟨db, key⟩ id now (nonce :: grest)).1.items
        = db.items.filter (fun r => decide (r.id ≠ id)) ∧
      load_catalog ⟨(delete_item ⟨db, key⟩ id now (nonce :: grest)).1, key⟩
        = .ok (es.filter fun en => decide (en.id ≠ id)) ∧
      (es.filter fun en => decide (en.id ≠ id)).countP
          (fun en => decide (en.id = id)) = 0) ∧
    ((∀ r ∈ db.items, r.id ≠ id) →
      delete_item ⟨db, key⟩ id now (nonce :: grest) = (db, .ok (nonce :: grest))) := by
  constructor
  · rintro ⟨r, hr, hid⟩
    have hlt : (db.items.filter (fun x => decide (x.id ≠ id))).length < db.items.length :=
      List.length_filter_lt_length_iff_exists.mpr ⟨r, hr, by simp [hid]⟩
    have hrows :
        db.items.length - (db.items.filter (fun x => decide (x.id ≠ id))).length ≠ 0 :=
      Nat.sub_ne_zero_of_lt hlt
    obtain ⟨row, hrow⟩ : ∃ row, db.catalog = some row := by
      unfold load_catalog at hload
      cases hc : db.catalog with
      | none =>
        rw [show (Vault.mk db key).conn.catalog = none from hc] at hload
        cases hload
      | some c => exact ⟨c, rfl⟩
    have hload1 :
        load_catalog ⟨{ db with items := db.items.filter (fun x => decide (x.id ≠ id)) },
          key⟩ = .ok es := hload
    have hdel : delete_item ⟨db, key⟩ id now (nonce :: grest)
        = ({ db with
              items := db.items.filter (fun x => decide (x.id ≠ id)),
              catalog := some ⟨nonce,
                ⟨key, nonce, .entries (es.filter fun en => decide (en.id ≠ id))⟩, now⟩ },
           .ok grest) := by
      unfold delete_item
      dsimp only
      rw [if_neg hrows, hload1]
      dsimp only
      rw [save_catalog_eq]
      dsimp only
      rw [show ({ db with items := db.items.filter (fun x => decide (x.id ≠ id)) } : DB).catalog
            = some row from hrow]
    refine ⟨by rw [hdel], by rw [hdel], ?_, ?_⟩
    · rw [hdel]
      exact load_catalog_enc _ key nonce _ now rfl hn
    · rw [List.countP_eq_zero]
      intro a ha
      have := (List.mem_filter.mp ha).2
      simp at this ⊢
      exact this
  · intro habs
    have hfe : db.items.filter (fun x => decide (x.id ≠ id)) = db.items :=
      List.filter_eq_self.mpr (fun a ha => by simpa using habs a ha)
    unfold delete_item
    dsimp only
    rw [hfe, Nat.sub_self]
    simp

/-! Claim C6: the password generator. -/

theorem rand_index_go_lt {limit n32 : Nat} (h0 : n32 ≠ 0) :
    ∀ {g g' : U32Rng} {k : Nat},
      rand_index_go limit n32 g = .ok (k, g') → k < n32 := by
  intro g
  induction g with
  | nil =>
    intro g' k h
    exact Except.noConfusion h
  | cons x xs ih =>
    intro g' k h
    unfold rand_index_go at h
    by_cases hx : x % 2 ^ 32 < limit
    · rw [if_pos hx] at h
      injection h with h1
      injection h1 with hk hg
      rw [← hk]
      exact Nat.mod_lt _ (Nat.pos_of_ne_zero h0)
    · rw [if_neg hx] at h
      exact ih h

theorem rand_index_lt {n : Nat} {g g' : U32Rng} {k : Nat}
    (h : rand_index n g = .ok (k, g')) : k < n := by
  unfold rand_index at h
  by_cases h0 : n = 0
  · rw [if_pos h0] at h
    exact Except.noConfusion h
  · rw [if_neg h0] at h
    dsimp only at h
    by_cases h32 : n % 2 ^ 32 = 0
    · rw [if_pos h32] at h
      exact Except.noConfusion h
    · rw [if_neg h32] at h
      exact lt_of_lt_of_le (rand_index_go_lt h32 h) (Nat.mod_le n _)

theorem rand_index_go_ne_validation (limit n32 : Nat) :
    ∀ g : U32Rng, rand_index_go limit n32 g ≠ .error .validation := by
  intro g
  induction g with
  | nil =>
    intro hc
    injection hc with he
    exact GenErr.noConfusion he
  | cons x xs ih =>
    unfold rand_index_go
    by_cases hx : x % 2 ^ 32 < limit
    · rw [if_pos hx]
      intro hc
      exact Except.noConfusion hc
    · rw [if_neg hx]
      exact ih

theorem rand_index_ne_validation (n : Nat) (g : U32Rng) :
    rand_index n g ≠ .error .validation := by
  unfold rand_index
  by_cases h0 : n = 0
  · rw [if_pos h0]
    intro hc
    injection hc with he
    exact GenErr.noConfusion he
  · rw [if_neg h0]
    dsimp only
    by_cases h32 : n % 2 ^ 32 = 0
    · rw [if_pos h32]
      intro hc
      injection hc with he
      exact GenErr.noConfusion he
    · rw [if_neg h32]
      exact rand_index_go_ne_validation _ _ g

theorem pick_one_ne_validation (a : List Char) (g : U32Rng) :
    pick_one a g ≠ .error .validation := by
  intro hc
  unfold pick_one at hc
  split at hc
  next e heq =>
    injection hc with he
    rw [he] at heq
    exact rand_index_ne_validation _ _ heq
  next k gk heq =>
    split at hc
    next c2 ha => exact Except.noConfusion hc
    next ha =>
      injection hc with he
      exact GenErr.noConfusion he

theorem pick_one_mem {a : List Char} {g g' : U32Rng} {c : Char}
    (h : pick_one a g = .ok (c, g')) : c ∈ a := by
  unfold pick_one at h
  split at h
  next e heq => exact Except.noConfusion h
  next k gk heq =>
    split at h
    next c2 ha =>
      injection h with h1
      injection h1 with hc hg
      obtain ⟨hk, he⟩ := List.getElem?_eq_some.mp ha
      rw [← hc, ← he]
      exact List.getElem_mem hk
    next ha => exact Except.noConfusion h

theorem seed_buckets_spec :
    ∀ (bs : List (List Char)) {g g' : U32Rng} {s : List Char},
      seed_buckets bs g = .ok (s, g') → List.Forall₂ (fun c b => c ∈ b) s bs := by
  intro bs
  induction bs with
  | nil =>
    intro g g' s h
    injection h with h1
    injection h1 with hs hg
    rw [← hs]
    exact List.Forall₂.nil
  | cons b bs ih =>
    intro g g' s h
    unfold seed_buckets at h
    split at h
    next e heq => exact Except.noConfusion h
    next c g1 heq =>
      split at h
      next e heq2 => exact Except.noConfusion h
      next rest g2 heq2 =>
        injection h with h1
        injection h1 with hs hg
        rw [← hs]
        exact List.Forall₂.cons (pick_one_mem heq) (ih heq2)

theorem seed_buckets_ne_validation (bs : List (List Char)) :
    ∀ g : U32Rng, seed_buckets bs g ≠ .error .validation := by
  induction bs with
  | nil =>
    intro g hc
    exact Except.noConfusion hc
  | cons b bs ih =>
    intro g hc
    unfold seed_buckets at hc
    split at hc
    next e heq =>
      injection hc with he
      rw [he] at heq
      exact pick_one_ne_validation _ _ heq
    next c g1 heq =>
      split at hc
      next e heq2 =>
        injection hc with he
        rw [he] at heq2
        exact ih g1 heq2
      next rest g2 heq2 => exact Except.noConfusion hc

theorem fillN_spec (union : List Char) :
    ∀ (n : Nat) {g g' : U32Rng} {f : List Char},
      fillN union n g = .ok (f, g') → f.length = n ∧ ∀ c ∈ f, c ∈ union := by
  intro n
  induction n with
  | zero =>
    intro g g' f h
    injection h with h1
    injection h1 with hf hg
    rw [← hf]
    exact ⟨rfl, by intro c hc; cases hc⟩
  | succ m ih =>
    intro g g' f h
    unfold fillN at h
    split at h
    next e heq => exact Except.noConfusion h
    next c g1 heq =>
      split at h
      next e heq2 => exact Except.noConfusion h
      next rest g2 heq2 =>
        injection h with h1
        injection h1 with hf hg
        rw [← hf]
        obtain ⟨hlen, hmem⟩ := ih heq2
        refine ⟨by simp [hlen], ?_⟩
        intro d hd
        cases hd with
        | head => exact pick_one_mem heq
        | tail _ htl => exact hmem d htl

theorem fillN_ne_validation (union : List Char) :
    ∀ (n : Nat) (g : U32Rng), fillN union n g ≠ .error .validation := by
  intro n
  induction n with
  | zero =>
    intro g hc
    exact Except.noConfusion hc
  | succ m ih =>
    intro g hc
    unfold fillN at hc
    split at hc
    next e heq =>
      injection hc with he
      rw [he] at heq
      exact pick_one_ne_validation _ _ heq
    next c g1 heq =>
      split at hc
      next e heq2 =>
        injection hc with he
        rw [he] at heq2
        exact ih g1 heq2
      next rest g2 heq2 => exact Except.noConfusion hc

theorem head_swap_perm :
    ∀ (xs : List Char) (n : Nat) (x : Char) (h : n < xs.length),
      List.Perm (xs[n] :: xs.set n x) (x :: xs) := by
  intro xs
  induction xs with
  | nil => intro n x h; cases h
  | cons y ys ih =>
    intro n x h
    cases n with
    | zero =>
      simp only [List.getElem_cons_zero, List.set_cons_zero]
      exact List.Perm.swap x y ys
    | succ m =>
      have hm : m < ys.length := by
        simpa using Nat.lt_of_succ_lt_succ h
      simp only [List.getElem_cons_succ, List.set_cons_succ]
      exact ((List.Perm.swap y ys[m] (ys.set m x)).trans
        (List.Perm.cons y (ih m x hm))).trans (List.Perm.swap x y ys)

theorem set_set_perm :
    ∀ (l : List Char) (i j : Nat) (hi : i < l.length) (hj : j < l.length),
      List.Perm ((l.set i l[j]).set j l[i]) l := by
  intro l
  induction l with
  | nil => intro i j hi hj; cases hi
  | cons x xs ih =>
    intro i j hi hj
    cases i with
    | zero =>
      cases j with
      | zero =>
        simp only [List.getElem_cons_zero, List.set_cons_zero]
        exact List.Perm.refl _
      | succ m =>
        have hm : m < xs.length := by simpa using Nat.lt_of_succ_lt_succ hj
        simp only [List.getElem_cons_zero, List.getElem_cons_succ,
          List.set_cons_zero, List.set_cons_succ]
        exact head_swap_perm xs m x hm
    | succ k =>
      have hk : k < xs.length := by simpa using Nat.lt_of_succ_lt_succ hi
      cases j with
      | zero =>
        simp only [List.getElem_cons_zero, List.getElem_cons_succ,
          List.set_cons_zero, List.set_cons_succ]
        exact head_swap_perm xs k x hk
      | succ m =>
        have hm : m < xs.length := by simpa using Nat.lt_of_succ_lt_succ hj
        simp only [List.getElem_cons_succ, List.set_cons_succ]
        exact List.Perm.cons x (ih k m hk hm)

theorem listSwap_perm (l : List Char) (i j : Nat) :
    List.Perm (listSwap l i j) l := by
  unfold listSwap
  split
  next a b hia hjb =>
    obtain ⟨hi, ha⟩ := List.getElem?_eq_some.mp hia
    obtain ⟨hj, hb⟩ := List.getElem?_eq_some.mp hjb
    rw [← ha, ← hb]
    exact set_set_perm l i j hi hj
  next _ _ => exact List.Perm.refl l

theorem fy_aux_perm :
    ∀ (i : Nat) (l : List Char) {g g' : U32Rng} {res : List Char},
      fy_aux l i g = .ok (res, g') → res.Perm l := by
  intro i
  induction i with
  | zero =>
    intro l g g' res h
    injection h with h1
    injection h1 with hr hg
    rw [← hr]
  | succ m ih =>
    intro l g g' res h
    unfold fy_aux at h
    split at h
    next e heq => exact Except.noConfusion h
    next j g1 heq =>
      exact (ih _ h).trans (listSwap_perm l (m + 1) j)

theorem fy_aux_ne_validation :
    ∀ (i : Nat) (l : List Char) (g : U32Rng),
      fy_aux l i g ≠ .error .validation := by
  intro i
  induction i with
  | zero =>
    intro l g hc
    exact Except.noConfusion hc
  | succ m ih =>
    intro l g hc
    unfold fy_aux at hc
    split at hc
    next e heq =>
      injection hc with he
      rw [he] at heq
      exact rand_index_ne_validation _ _ heq
    next j g1 heq => exact ih _ g1 hc

theorem enabledBuckets_isEmpty_iff (nu nl nd ns : Bool) :
    (enabledBuckets nu nl nd ns).isEmpty = true ↔
      (nu = true ∧ nl = true ∧ nd = true ∧ ns = true) := by
  cases nu <;> cases nl <;> cases nd <;> cases ns <;> decide

theorem enabledBuckets_length (nu nl nd ns : Bool) :
    (enabledBuckets nu nl nd ns).length = numEnabled nu nl nd ns := by
  cases nu <;> cases nl <;> cases nd <;> cases ns <;> rfl

theorem mem_enabledBuckets_sub (nu nl nd ns : Bool) {b : List Char}
    (hb : b ∈ enabledBuckets nu nl nd ns) {c : Char} (hc : c ∈ b) :
    c ∈ unionPool nu nl nd ns := by
  have h : ∀ b2 ∈ enabledBuckets nu nl nd ns, ∀ c2 ∈ b2,
      c2 ∈ unionPool nu nl nd ns := by
    cases nu <;> cases nl <;> cases nd <;> cases ns <;> decide
  exact h b hb c hc

theorem UPPERS_mem_enabledBuckets (nl nd ns : Bool) :
    UPPERS ∈ enabledBuckets false nl nd ns := by
  cases nl <;> cases nd <;> cases ns <;> decide

theorem LOWERS_mem_enabledBuckets (nu nd ns : Bool) :
    LOWERS ∈ enabledBuckets nu false nd ns := by
  cases nu <;> cases nd <;> cases ns <;> decide

theorem DIGITS_mem_enabledBuckets (nu nl ns : Bool) :
    DIGITS ∈ enabledBuckets nu nl false ns := by
  cases nu <;> cases nl <;> cases ns <;> decide

theorem SPECIALS_mem_enabledBuckets (nu nl nd : Bool) :
    SPECIALS ∈ enabledBuckets nu nl nd false := by
  cases nu <;> cases nl <;> cases nd <;> decide

theorem forall₂_mem_left {s : List Char} {bs : List (List Char)}
    (h : List.Forall₂ (fun c b => c ∈ b) s bs) :
    ∀ c ∈ s, ∃ b ∈ bs, c ∈ b := by
  induction h with
  | nil => intro c hc; cases hc
  | cons hcb htl ih =>
    intro c hc
    cases hc with
    | head => exact ⟨_, List.mem_cons_self _ _, hcb⟩
    | tail _ htl2 =>
      obtain ⟨b, hb, hcb2⟩ := ih c htl2
      exact ⟨b, List.mem_cons_of_mem _ hb, hcb2⟩

theorem forall₂_mem_right {s : List Char} {bs : List (List Char)}
    (h : List.Forall₂ (fun c b => c ∈ b) s bs) :
    ∀ b ∈ bs, ∃ c ∈ s, c ∈ b := by
  induction h with
  | nil => intro b hb; cases hb
  | cons hcb htl ih =>
    intro b hb
    cases hb with
    | head => exact ⟨_, List.mem_cons_self _ _, hcb⟩
    | tail _ htl2 =>
      obtain ⟨c, hc, hcb2⟩ := ih b htl2
      exact ⟨c, List.mem_cons_of_mem _ hc, hcb2⟩

/-- C6: `gen_password` fails with the validation error exactly when all
character classes are disabled or the requested length is smaller than
the number of enabled classes; on success the password has exactly the
requested length, contains at least one character from each enabled
class, and no character outside the union of the enabled pools. -/
theorem gen_password_spec (len : Nat) (nu nl nd ns : Bool) (g : U32Rng) :
    (gen_password len nu nl nd ns g = .error .validation ↔
      ((nu = true ∧ nl = true ∧ nd = true ∧ ns = true) ∨
        len < numEnabled nu nl nd ns)) ∧
    (∀ pw, gen_password len nu nl nd ns g = .ok pw →
      pw.length = len ∧
      (nu = false → ∃ c ∈ pw, c ∈ UPPERS) ∧
      (nl = false → ∃ c ∈ pw, c ∈ LOWERS) ∧
      (nd = false → ∃ c ∈ pw, c ∈ DIGITS) ∧
      (ns = false → ∃ c ∈ pw, c ∈ SPECIALS) ∧
      (∀ c ∈ pw, c ∈ unionPool nu nl nd ns)) := by
  by_cases hbe : (enabledBuckets nu nl nd ns).isEmpty = true
  · have hgen : gen_password len nu nl nd ns g = .error .validation := by
      unfold gen_password
      rw [if_pos hbe]
    refine ⟨⟨fun _ => Or.inl ((enabledBuckets_isEmpty_iff nu nl nd ns).mp hbe),
      fun _ => hgen⟩, ?_⟩
    intro pw hpw
    rw [hgen] at hpw
    exact Except.noConfusion hpw
  · by_cases hlen : len < (enabledBuckets nu nl nd ns).length
    · have hgen : gen_password len nu nl nd ns g = .error .validation := by
        unfold gen_password
        rw [if_neg hbe, if_pos hlen]
      refine ⟨⟨fun _ => Or.inr (enabledBuckets_length nu nl nd ns ▸ hlen),
        fun _ => hgen⟩, ?_⟩
      intro pw hpw
      rw [hgen] at hpw
      exact Except.noConfusion hpw
    · have hgen : gen_password len nu nl nd ns g
          = (match seed_buckets (enabledBuckets nu nl nd ns) g with
             | .error e => .error e
             | .ok (seeds, g1) =>
               match fillN (unionPool nu nl nd ns) (len - seeds.length) g1 with
               | .error e => .error e
               | .ok (filled, g2) =>
                 match fy_aux (seeds ++ filled) ((seeds ++ filled).length - 1) g2 with
                 | .error e => .error e
                 | .ok (res, _) => .ok res) := by
        unfold gen_password
        rw [if_neg hbe, if_neg hlen]
      constructor
      · rw [hgen]
        constructor
        · intro hval
          exfalso
          cases hs : seed_buckets (enabledBuckets nu nl nd ns) g with
          | error e =>
            rw [hs] at hval
            dsimp only at hval
            injection hval with he
            rw [he] at hs
            exact seed_buckets_ne_validation _ _ hs
          | ok p =>
            obtain ⟨seeds, g1⟩ := p
            rw [hs] at hval
            dsimp only at hval
            cases hf : fillN (unionPool nu nl nd ns) (len - seeds.length) g1 with
            | error e =>
              rw [hf] at hval
              dsimp only at hval
              injection hval with he
              rw [he] at hf
              exact fillN_ne_validation _ _ _ hf
            | ok q =>
              obtain ⟨filled, g2⟩ := q
              rw [hf] at hval
              dsimp only at hval
              cases hy : fy_aux (seeds ++ filled) ((seeds ++ filled).length - 1) g2 with
              | error e =>
                rw [hy] at hval
                dsimp only at hval
                injection hval with he
                rw [he] at hy
                exact fy_aux_ne_validation _ _ _ hy
              | ok r =>
                obtain ⟨res, g3⟩ := r
                rw [hy] at hval
                dsimp only at hval
                exact Except.noConfusion hval
        · intro hrhs
          exfalso
          cases hrhs with
          | inl hall =>
            exact hbe ((enabledBuckets_isEmpty_iff nu nl nd ns).mpr hall)
          | inr hlt =>
            exact hlen (by rw [enabledBuckets_length]; exact hlt)
      · intro pw hpw
        rw [hgen] at hpw
        cases hs : seed_buckets (enabledBuckets nu nl nd ns) g with
        | error e =>
          rw [hs] at hpw
          exact Except.noConfusion hpw
        | ok p =>
          obtain ⟨seeds, g1⟩ := p
          rw [hs] at hpw
          dsimp only at hpw
          cases hf : fillN (unionPool nu nl nd ns) (len - seeds.length) g1 with
          | error e =>
            rw [hf] at hpw
            exact Except.noConfusion hpw
          | ok q =>
            obtain ⟨filled, g2⟩ := q
            rw [hf] at hpw
            dsimp only at hpw
            cases hy : fy_aux (seeds ++ filled) ((seeds ++ filled).length - 1) g2 with
            | error e =>
              rw [hy] at hpw
              exact Except.noConfusion hpw
            | ok r =>
              obtain ⟨res, g3⟩ := r
              rw [hy] at hpw
              dsimp only at hpw
              injection hpw with hres
              subst hres
              have hforall := seed_buckets_spec _ hs
              have hslen : seeds.length = (enabledBuckets nu nl nd ns).length :=
                hforall.length_eq
              obtain ⟨hflen, hfmem⟩ := fillN_spec _ _ hf
              have hperm : res.Perm (seeds ++ filled) := fy_aux_perm _ _ hy
              have hble : (enabledBuckets nu nl nd ns).length ≤ len := not_lt.mp hlen
              have hmem_out : ∀ c ∈ res, c ∈ unionPool nu nl nd ns := by
                intro c hc
                rcases List.mem_append.mp (hperm.mem_iff.mp hc) with hcs | hcf
                · obtain ⟨b, hb, hcb⟩ := forall₂_mem_left hforall c hcs
                  exact mem_enabledBuckets_sub nu nl nd ns hb hcb
                · exact hfmem c hcf
              have hrep : ∀ b ∈ enabledBuckets nu nl nd ns, ∃ c ∈ res, c ∈ b := by
                intro b hb
                obtain ⟨c, hcs, hcb⟩ := forall₂_mem_right hforall b hb
                exact ⟨c, hperm.mem_iff.mpr (List.mem_append_left _ hcs), hcb⟩
              refine ⟨?_, ?_, ?_, ?_, ?_, hmem_out⟩
              · rw [hperm.length_eq, List.length_append, hslen, hflen, hslen]
                omega
              · intro hflag
                exact hrep UPPERS (hflag ▸ UPPERS_mem_enabledBuckets nl nd ns)
              · intro hflag
                exact hrep LOWERS (hflag ▸ LOWERS_mem_enabledBuckets nu nd ns)
              · intro hflag
                exact hrep DIGITS (hflag ▸ DIGITS_mem_enabledBuckets nu nl ns)
              · intro hflag
                exact hrep SPECIALS (hflag ▸ SPECIALS_mem_enabledBuckets nu nl nd)

/-! Concrete sample vaults used to instantiate the theorems. -/

def sampleSalt : Bytes := [1, 2, 3, 4, 5, 6, 7, 8]

def sampleParams : Params := ⟨262144, 3, 1⟩

def sampleKey : KeyS := derive_key ("a".toList) sampleSalt sampleParams

def sampleHeader : Header := ⟨1, sampleSalt, 262144, 3, 1⟩

def sampleNonce : Bytes := [9, 9, 9, 9, 9, 9, 9, 9, 9, 9, 9, 9]

def sampleNonce2 : Bytes := [4, 4, 4, 4, 4, 4, 4, 4, 4, 4, 4, 4]

/-- Five catalog entries stored out of title order, to exercise the
sorted view. -/
def sampleEntries : List CatalogEntry :=
  [⟨"cccc3333".toList, "Candle".toList, 3⟩,
   ⟨"aaaa1111".toList, "Alpha".toList, 1⟩,
   ⟨"eeee5555".toList, "Echo".toList, 5⟩,
   ⟨"bbbb2222".toList, "Bravo".toList, 2⟩,
   ⟨"dddd4444".toList, "Delta".toList, 4⟩]

def sampleItemRow : ItemRow :=
  ⟨"aaaa1111".toList, sampleNonce2,
   ⟨sampleKey, sampleNonce2,
    .item ⟨"Alpha".toList, "user".toList, "pw".toList, "".toList⟩⟩, 1, 1⟩

def sampleDB : DB :=
  ⟨some sampleHeader,
   some ⟨sampleNonce, ⟨sampleKey, sampleNonce, .entries sampleEntries⟩, 5⟩,
   [sampleItemRow]⟩

def sampleVault : Vault := ⟨sampleDB, sampleKey⟩

/-! Witnesses instantiating each claim's theorem on a concrete vault. -/

/-- C1 witness: rotating with the wrong old password fails with the
authentication error and leaves the sample vault unchanged. -/
theorem set_master_password_atomic_witness :
    (set_master_password sampleVault ("b".toList) ("n".toList) 7
      [[0, 0, 0], [1, 1, 1]]).2 = .error .auth ∧
    (set_master_password sampleVault ("b".toList) ("n".toList) 7
      [[0, 0, 0], [1, 1, 1]]).1.items = sampleVault.conn.items ∧
    (set_master_password sampleVault ("b".toList) ("n".toList) 7
      [[0, 0, 0], [1, 1, 1]]).1.catalog = sampleVault.conn.catalog ∧
    (set_master_password sampleVault ("b".toList) ("n".toList) 7
      [[0, 0, 0], [1, 1, 1]]).1.header = sampleVault.conn.header :=
  ⟨rfl, set_master_password_atomic sampleVault ("b".toList) ("n".toList) 7
    [[0, 0, 0], [1, 1, 1]] .auth rfl⟩

/-- C2 witness: a concrete encryption round-trips. -/
theorem encrypt_decrypt_roundtrip_witness :
    decrypt_blob sampleKey [7, 7, 7] ⟨sampleKey, [7, 7, 7], .bytes [1, 2]⟩
      = .ok (.bytes [1, 2]) :=
  encrypt_decrypt_roundtrip sampleKey (.bytes [1, 2]) [[7, 7, 7]]
    ⟨sampleKey, [7, 7, 7], .bytes [1, 2]⟩ [7, 7, 7] [] rfl

/-- C3 witness: deleting an existing item removes its row and its
catalog entry, leaving no entry with the id. -/
theorem delete_item_spec_witness :
    (delete_item ⟨sampleDB, sampleKey⟩ ("aaaa1111".toList) 9 [sampleNonce2]).2
      = .ok [] ∧
    (delete_item ⟨sampleDB, sampleKey⟩ ("aaaa1111".toList) 9 [sampleNonce2]).1.items
      = sampleDB.items.filter (fun r => decide (r.id ≠ "aaaa1111".toList)) ∧
    load_catalog ⟨(delete_item ⟨sampleDB, sampleKey⟩ ("aaaa1111".toList) 9
        [sampleNonce2]).1, sampleKey⟩
      = .ok (sampleEntries.filter fun en => decide (en.id ≠ "aaaa1111".toList)) ∧
    (sampleEntries.filter fun en => decide (en.id ≠ "aaaa1111".toList)).countP
        (fun en => decide (en.id = "aaaa1111".toList)) = 0 :=
  (delete_item_spec sampleDB sampleKey ("aaaa1111".toList) 9 sampleNonce2 []
    sampleEntries rfl rfl).1 ⟨sampleItemRow, by decide, rfl⟩

/-- C4 witness: on the five-entry catalog, selector 3 resolves to the
third title-sorted entry's id (the spec's own example). -/
theorem resolve_selector_index_spec_witness :
    resolve_selector_to_id sampleVault ("3".toList) = .ok ("cccc3333".toList) := by
  have h := (resolve_selector_index_spec sampleVault ("3".toList)
    (List.insertionSort entry_ple sampleEntries) rfl (by decide) (by decide)
    (by decide)).1 (by decide) (by decide)
  exact h

/-- C5 witness: a unique 4-character id prefix resolves to the matching
entry's id. -/
theorem resolve_selector_prefix_spec_witness :
    resolve_selector_to_id sampleVault ("bbbb".toList) = .ok ("bbbb2222".toList) := by
  have h := (((resolve_selector_prefix_spec sampleVault ("bbbb".toList)
    (List.insertionSort entry_ple sampleEntries) rfl (by decide) (by decide)).2
    (by decide)).2.1) ⟨"bbbb2222".toList, "Bravo".toList, 2⟩ (by decide)
  exact h

/-- C6 witness: with every class enabled, a length-12 request succeeds
with a 12-character password, and a length-2 request is a validation
error (the spec's own examples). -/
theorem gen_password_spec_witness :
    gen_password 12 false false false false (List.replicate 30 0)
      = .ok ("a2!AAAAAAAAA".toList) ∧
    ("a2!AAAAAAAAA".toList).length = 12 ∧
    gen_password 2 false false false false [] = .error .validation :=
  ⟨rfl,
   ((gen_password_spec 12 false false false false (List.replicate 30 0)).2
     ("a2!AAAAAAAAA".toList) rfl).1,
   (gen_password_spec 2 false false false false []).1.mpr (Or.inr (by decide))⟩

def sampleSalt16 : Bytes := [0, 1, 2, 3, 4, 5, 6, 7, 8, 9, 10, 11, 12, 13, 14, 15]

def openedKey : KeyS := derive_key ("p".toList) sampleSalt16 sampleParams

/-- State produced by a first `Vault::open` of an empty file. -/
def openedDB : DB :=
  ⟨some ⟨1, sampleSalt16, 262144, 3, 1⟩,
   some ⟨sampleNonce, ⟨openedKey, sampleNonce, .entries []⟩, 3⟩, []⟩

/-- C7 witness: re-opening the state produced by a successful first
open changes nothing and returns the same key. -/
theorem openVault_idempotent_witness :
    Vault.openVault openedDB ("p".toList) 4 []
      = (openedDB, .ok ⟨openedDB, openedKey⟩, []) :=
  openVault_idempotent ⟨none, none, []⟩ openedDB ("p".toList) 3
    [sampleSalt16, sampleNonce] [] ⟨openedDB, openedKey⟩ rfl 4 []

/-- C8 witness: the sample catalog loads sorted as a permutation of the
stored entries. -/
theorem load_catalog_sorted_spec_witness :
    load_catalog_sorted sampleVault
      = .ok (List.insertionSort entry_ple sampleEntries) ∧
    (List.insertionSort entry_ple sampleEntries).Perm sampleEntries :=
  ⟨(load_catalog_sorted_spec sampleVault sampleEntries rfl).1,
   (load_catalog_sorted_spec sampleVault sampleEntries rfl).2.1⟩

/-- Vault whose catalog blob decrypts to the empty byte string. -/
def emptyPtDB : DB :=
  ⟨some sampleHeader,
   some ⟨sampleNonce, ⟨sampleKey, sampleNonce, .bytes []⟩, 2⟩, []⟩

/-- C9 witness: the zero-byte catalog plaintext loads as no entries. -/
theorem load_catalog_empty_plaintext_witness :
    load_catalog ⟨emptyPtDB, sampleKey⟩ = .ok [] :=
  load_catalog_empty_plaintext ⟨emptyPtDB, sampleKey⟩
    ⟨sampleNonce, ⟨sampleKey, sampleNonce, .bytes []⟩, 2⟩ rfl rfl rfl rfl rfl

/-- C10 witness: a 20-digit selector (past usize capacity) fails with
the index-out-of-range error instead of panicking. -/
theorem resolve_selector_overflow_safe_witness :
    resolve_selector_to_id sampleVault ("99999999999999999999".toList)
      = .error .indexOutOfRange :=
  resolve_selector_overflow_safe sampleVault ("99999999999999999999".toList)
    (List.insertionSort entry_ple sampleEntries) rfl (by decide) (by decide)
    (by decide) (by decide)

/-! Counterexamples refuting the claims corrected above. -/

def danglingEntry : CatalogEntry := ⟨"ffff6666".toList, "Ghost".toList, 6⟩

/-- Vault with a catalog entry whose item row is missing (the crash
artifact the spec itself describes). -/
def danglingDB : DB :=
  ⟨some sampleHeader,
   some ⟨sampleNonce, ⟨sampleKey, sampleNonce, .entries [danglingEntry]⟩, 5⟩,
   []⟩

/-- C3 counterexample: deleting an id whose item row is absent but
whose catalog entry exists returns successfully while the whole state —
the dangling catalog entry included — survives, so one entry with the
id remains after a successful return, not zero as the claim states. -/
theorem delete_item_dangling_counterexample :
    (delete_item ⟨danglingDB, sampleKey⟩ ("ffff6666".toList) 9 [sampleNonce2]).2
      = .ok [sampleNonce2] ∧
    (delete_item ⟨danglingDB, sampleKey⟩ ("ffff6666".toList) 9 [sampleNonce2]).1
      = danglingDB ∧
    load_catalog ⟨(delete_item ⟨danglingDB, sampleKey⟩ ("ffff6666".toList) 9
        [sampleNonce2]).1, sampleKey⟩ = .ok [danglingEntry] ∧
    ([danglingEntry].countP fun en => decide (en.id = "ffff6666".toList)) = 1 :=
  ⟨rfl, rfl, rfl, by decide⟩

/-- C5 counterexample: the resolver trims the selector before
lower-casing.  The padded selector resolves to an entry even though its
merely lower-cased form (5 characters, so past the length check under
the claim's reading) is an id prefix of zero entries — the claim as
stated predicts a no-match failure where the code succeeds. -/
theorem resolve_selector_no_trim_counterexample :
    resolve_selector_to_id sampleVault (" AAAA".toList) = .ok ("aaaa1111".toList) ∧
    ((List.insertionSort entry_ple sampleEntries).filter
      (fun en => (lowerStr (" AAAA".toList)).isPrefixOf en.id)) = [] ∧
    utf8Len (lowerStr (" AAAA".toList)) = 5 :=
  ⟨rfl, by decide, by decide⟩
